import Mathlib

/-!
Verification of the invoice-field extraction pipeline of the
gmail-invoice-automation repository (`src/main.py`, class `SimpleRPA`).

The extractor `SimpleRPA.extract_invoice_data` is a pure function of the
text extracted from a PDF (plus the source file name); we embed it
shallowly.  Python string operations are modelled over `List Char`
(restricted to the ASCII behaviour the extractor relies on: `str.lower`,
`str.strip`, `\d` in regexes); machine floats are modelled by exact
rationals `ℚ` — no claim below depends on binary rounding, only on which
decimal string is parsed.
-/

/-- Python whitespace characters stripped by `str.strip()` (ASCII range). -/
def isPySpace (c : Char) : Bool :=
  c = ' ' || c = '\t' || c = '\n' || c = '\r' || c = '\x0b' || c = '\x0c'

/-- Model of Python `str.strip()` on the character list. -/
def trimChars (cs : List Char) : List Char :=
  ((cs.dropWhile isPySpace).reverse.dropWhile isPySpace).reverse

/-- Model of Python `str.strip()`. -/
def pyStrip (s : String) : String :=
  String.mk (trimChars s.data)

/-- Model of Python `str.lower()` (ASCII letters; all inputs the extractor
compares against are ASCII). -/
def pyLower (s : String) : String :=
  String.mk (s.data.map Char.toLower)

/-- Model of Python `str.split(sep)` for a one-character separator:
`"".split(c) = [""]`, and every occurrence of the separator starts a new
field. -/
def splitOnChar (sep : Char) : List Char → List (List Char)
  | [] => [[]]
  | c :: rest =>
    if c = sep then [] :: splitOnChar sep rest
    else
      match splitOnChar sep rest with
      | [] => [[c]]
      | h :: t => (c :: h) :: t

/-- Model of Python `s.split(sep)` for a one-character separator. -/
def pySplit (s : String) (sep : Char) : List String :=
  (splitOnChar sep s.data).map String.mk

/-- Does `pat` occur as a contiguous sublist of the second argument?
Models Python `pat in s`. -/
def containsSub (pat : List Char) : List Char → Bool
  | [] => pat.isEmpty
  | c :: rest => pat.isPrefixOf (c :: rest) || containsSub pat rest

/-- Model of Python `pat in s` (substring containment). -/
def pyContains (s pat : String) : Bool :=
  containsSub pat.data s.data

/-- Characters matched by the regex class `[\d,]` (ASCII digits or comma). -/
def isAmtChar (c : Char) : Bool :=
  c.isDigit || c = ','

/-- Model of `re.findall(r'\$([\d,]+\.?\d*)', line)`: every capture group,
left to right.  The pattern is deterministic maximal-munch: after a `$`,
`[\d,]+` greedily takes the maximal digit/comma run (the optional tail
`\.?\d*` always matches, so no backtracking), `\.?` takes a dot if present,
`\d*` the maximal digit run after it.  Python's `findall` resumes scanning
after the end of each match; resuming right after the `$` instead is
equivalent because a matched region never contains `$` (only digits,
commas and a dot), so no match can start inside it — this keeps the
recursion structural. -/
def findAmounts : List Char → List (List Char)
  | [] => []
  | c :: rest =>
    if c = '$' ∧ rest.takeWhile isAmtChar ≠ [] then
      (match rest.dropWhile isAmtChar with
       | '.' :: rest2 => rest.takeWhile isAmtChar ++ '.' :: rest2.takeWhile Char.isDigit
       | _ => rest.takeWhile isAmtChar) :: findAmounts rest
    else findAmounts rest

/-- Numeric value of a list of ASCII digits (most significant first). -/
def digitsVal (ds : List Char) : ℕ :=
  ds.foldl (fun n c => 10 * n + (c.toNat - 48)) 0

/-- Model of Python `float(s)` restricted to the strings it is actually
applied to in the source: a regex capture with the commas removed, i.e. a
string drawn from `[0-9.]*` with at most one dot.  `float` succeeds
exactly when at least one digit is present (`float("")`, `float(".")`
raise `ValueError`), and the value is the exact decimal it denotes,
modelled as a rational. -/
def parseFloatRestricted (cs : List Char) : Option ℚ :=
  if cs.all (fun c => c.isDigit || c = '.') ∧ cs.count '.' ≤ 1 ∧ cs.any Char.isDigit then
    match splitOnChar '.' cs with
    | [ip] => some (digitsVal ip)
    | [ip, fp] => some ((digitsVal ip : ℚ) + (digitsVal fp : ℚ) / (10 : ℚ) ^ fp.length)
    | _ => none
  else none

/-- The amount a single matched capture contributes:
`float(amounts[-1].replace(',', ''))`, with failure as `none`. -/
def parseCapture (cap : List Char) : Option ℚ :=
  parseFloatRestricted (cap.filter (fun c => c != ','))

/-- The stoplist of `skip_keywords` from the vendor-name loop, in source
order. -/
def stopKeywords : List String :=
  ["invoice", "bill", "date", "phone", "email", "address", "description",
   "qty", "unit", "total", "please", "share", "form", "within", "hours",
   "recent", "infusion"]

/-- The vendor-line test from the source: after stripping, the line is
non-empty (`if line`), longer than 3 characters, and its lowercase form
contains no stoplist keyword. -/
def vendorOK (t : String) : Bool :=
  (t != "") && decide (3 < t.length) &&
    !(stopKeywords.any (fun k => pyContains (pyLower t) k))

/-- The labeled-field loop (`Invoice Number:`, `Invoice Date:`,
`Due Date:`): first line containing the label; `parts = line.split(':')`;
if `len(parts) > 1` the field is `parts[1].strip()` and the loop breaks,
otherwise the loop continues. -/
def extractLabeled (label : String) : List String → Option String
  | [] => none
  | l :: ls =>
    if pyContains l label then
      if 1 < (pySplit l ':').length then some (pyStrip ((pySplit l ':').getD 1 ""))
      else extractLabeled label ls
    else extractLabeled label ls

/-- The vendor-name loop: first stripped line passing `vendorOK`. -/
def extractVendor : List String → Option String
  | [] => none
  | l :: ls =>
    let t := pyStrip l
    if vendorOK t then some t else extractVendor ls

/-- The amount loop: lines containing `$`; on such a line run the regex,
take the last capture, strip commas, parse; on `ValueError` (or when the
regex found nothing) continue with the next line; the first success
breaks the loop. -/
def extractAmount : List String → Option ℚ
  | [] => none
  | l :: ls =>
    if pyContains l "$" then
      match (findAmounts l.data).getLast? with
      | some cap =>
        match parseCapture cap with
        | some q => some q
        | none => extractAmount ls
      | none => extractAmount ls
    else extractAmount ls

/-- The payment-status loop: first line containing `Payment Status:`;
the trimmed `parts[1]` is normalised — containing `unpaid`
(case-insensitively) gives `Unpaid`, else containing `paid` gives `Paid`,
else the raw trimmed value; no such line leaves the field `None`. -/
def extractPaymentStatus : List String → Option String
  | [] => none
  | l :: ls =>
    if pyContains l "Payment Status:" then
      if 1 < (pySplit l ':').length then
        let status := pyStrip ((pySplit l ':').getD 1 "")
        if pyContains (pyLower status) "unpaid" then some "Unpaid"
        else if pyContains (pyLower status) "paid" then some "Paid"
        else some status
      else extractPaymentStatus ls
    else extractPaymentStatus ls

/-- The record built by `extract_invoice_data`: exactly the seven keys of
the `invoice_data` dict, with `None` as `none`.  `invoice_amount` is the
parsed float, modelled exactly. -/
structure InvoiceData where
  invoice_number : Option String
  vendor_name : Option String
  invoice_date : Option String
  invoice_amount : Option ℚ
  due_date : Option String
  payment_status : Option String
  file_path : String
deriving DecidableEq, Repr

/-- The record returned from the `except` branch: all six data fields
`None`, `file_path` set to the base name. -/
def nullRecord (fname : String) : InvoiceData :=
  { invoice_number := none
    vendor_name := none
    invoice_date := none
    invoice_amount := none
    due_date := none
    payment_status := none
    file_path := fname }

/-- The body of `extract_invoice_data` after `lines = text_content.split('\n')`:
each field by its own independent scan of the lines. -/
def extractFromLines (lines : List String) (fname : String) : InvoiceData :=
  { invoice_number := extractLabeled "Invoice Number:" lines
    vendor_name := extractVendor lines
    invoice_date := extractLabeled "Invoice Date:" lines
    invoice_amount := extractAmount lines
    due_date := extractLabeled "Due Date:" lines
    payment_status := extractPaymentStatus lines
    file_path := fname }

/-- Model of `Path(p).name` for POSIX paths: the last nonempty component. -/
def pathName (p : String) : String :=
  (((pySplit p '/').filter (fun s => s != "")).getLastD "")

/-- `extract_invoice_data` on successfully extracted text: split the text
on newlines and run the field scans; `file_path` is `Path(pdf_path).name`. -/
def extract_invoice_data (text : String) (pdf_path : String) : InvoiceData :=
  extractFromLines (pySplit text '\n') (pathName pdf_path)

/-- `extract_invoice_data` including its `try/except`: the PDF-reading
collaborator either yields the concatenated page text or fails with an
exception, and any exception yields the all-null record. -/
def extract_invoice_data_run (doc : Except String String) (pdf_path : String) : InvoiceData :=
  match doc with
  | Except.ok text => extract_invoice_data text pdf_path
  | Except.error _ => nullRecord (pathName pdf_path)

/-- The `SimpleRPA` instance state read by the object: directories and the
downloader configuration.  `extract_invoice_data` is a method on this
object; modelling the method as explicit state passing makes the absence
of cross-call mutation provable. -/
structure RPAState where
  input_dir : String
  output_dir : String
  email_config : String
deriving DecidableEq

/-- `extract_invoice_data` as a method: the body never assigns to `self`,
so the state threads through unchanged. -/
def extract_invoice_data_method (st : RPAState) (text : String) (pdf_path : String) :
    InvoiceData × RPAState :=
  (extract_invoice_data text pdf_path, st)

/-- Python truthiness of an optional string (`None` and `""` are falsy). -/
def truthyStr : Option String → Bool
  | none => false
  | some s => s != ""

/-- Python truthiness of an optional float (`None` and `0.0` are falsy). -/
def truthyAmt : Option ℚ → Bool
  | none => false
  | some q => q != 0

/-- The caller's emission test in `process_invoices`:
`if invoice_data['invoice_number'] or invoice_data['invoice_amount'] or
invoice_data['vendor_name']`. -/
def keepRecord (r : InvoiceData) : Bool :=
  truthyStr r.invoice_number || truthyAmt r.invoice_amount || truthyStr r.vendor_name

/-- The caller's accumulation loop: append exactly the records passing
`keepRecord`, in order. -/
def filterRecords (rs : List InvoiceData) : List InvoiceData :=
  rs.filter keepRecord

/-- A cell value of the summary sheet (`Value` column holds both ints and
strings). -/
inductive SVal where
  | nat : ℕ → SVal
  | str : String → SVal
deriving DecidableEq, Repr

/-- Reversed-digit comma grouping used by Python's `,` format flag. -/
def group3 : List Char → List Char
  | a :: b :: c :: d :: rest => a :: b :: c :: ',' :: group3 (d :: rest)
  | l => l

/-- Decimal digits of `n` with thousands separators. -/
def natCommaStr (n : ℕ) : String :=
  String.mk (group3 (toString n).data.reverse).reverse

/-- Floor of a rational, computably. -/
def floorQ (q : ℚ) : ℤ :=
  Int.fdiv q.num q.den

/-- Round-half-to-even, the rounding used when Python formats a float
with `.2f` (applied here to the exact rational value). -/
def bankersRound (q : ℚ) : ℤ :=
  let f := floorQ q
  if q - (f : ℚ) < 1 / 2 then f
  else if (1 / 2 : ℚ) < q - (f : ℚ) then f + 1
  else if f % 2 = 0 then f else f + 1

/-- Model of `f"${x:,.2f}"`: dollar sign, then the value with thousands
separators and exactly two decimals. -/
def formatCurrency (q : ℚ) : String :=
  let cents := bankersRound (q * 100)
  let n := cents.natAbs
  (if cents < 0 then "$-" else "$") ++ natCommaStr (n / 100) ++ "." ++
    (if n % 100 < 10 then "0" else "") ++ toString (n % 100)

/-- `sum(item.get('invoice_amount', 0) for item in invoice_data_list if
item.get('invoice_amount'))`: the sum of the truthy amounts. -/
def totalAmountOf (rs : List InvoiceData) : ℚ :=
  ((rs.filterMap InvoiceData.invoice_amount).filter (fun q => q != 0)).sum

/-- `len(set(item.get('vendor_name', '') for item in invoice_data_list if
item.get('vendor_name')))`: the number of distinct truthy vendor names. -/
def uniqueVendorCount (rs : List InvoiceData) : ℕ :=
  ((rs.filterMap InvoiceData.vendor_name).filter (fun s => s != "")).dedup.length

/-- The three rows appended to `summary_data`, in order. -/
def summaryRows (rs : List InvoiceData) : List (String × SVal) :=
  [("Total Invoices", SVal.nat rs.length),
   ("Total Amount", SVal.str (formatCurrency (totalAmountOf rs))),
   ("Unique Vendors", SVal.nat (uniqueVendorCount rs))]

/-- Claim-side restatement of the per-line amount rule: on a line
containing `$`, the last regex capture, comma-stripped and parsed;
otherwise nothing. -/
def cLineAmount (l : String) : Option ℚ :=
  if pyContains l "$" then ((findAmounts l.data).getLast?).bind parseCapture else none

/-- Claim-side restatement of the vendor-line condition: non-empty,
longer than three characters, containing none of the stoplist words. -/
def claimVendorOK (t : String) : Bool :=
  (t != "") && decide (3 < t.length) &&
    stopKeywords.all (fun k => !pyContains (pyLower t) k)

/-- The payment-status normalisation as a value-level function. -/
def normStat (v : String) : String :=
  if pyContains (pyLower v) "unpaid" then "Unpaid"
  else if pyContains (pyLower v) "paid" then "Paid"
  else v

/-- The value a labeled line yields: the trimmed second field of the
colon-split (the text between the first and second colons). -/
def labeledValue (l : String) : String :=
  pyStrip ((pySplit l ':').getD 1 "")

/-! ### Helper lemmas -/

theorem mem_of_containsSub {pat s : List Char} (h : containsSub pat s = true) :
    ∀ c ∈ pat, c ∈ s := by
  induction s with
  | nil =>
    intro c hc
    cases pat with
    | nil => cases hc
    | cons p ps => simp [containsSub] at h
  | cons a rest ih =>
    intro c hc
    simp only [containsSub, Bool.or_eq_true] at h
    rcases h with h | h
    · exact (List.isPrefixOf_iff_prefix.mp h).subset hc
    · exact List.mem_cons_of_mem a (ih h c hc)

theorem splitOnChar_ne_nil (sep : Char) (cs : List Char) : splitOnChar sep cs ≠ [] := by
  induction cs with
  | nil => simp [splitOnChar]
  | cons c rest ih =>
    simp only [splitOnChar]
    split
    · simp
    · split <;> simp

theorem two_le_splitOnChar_length {sep : Char} {cs : List Char} (h : sep ∈ cs) :
    2 ≤ (splitOnChar sep cs).length := by
  induction cs with
  | nil => cases h
  | cons c rest ih =>
    simp only [splitOnChar]
    by_cases hc : c = sep
    · rw [if_pos hc]
      have h1 : 0 < (splitOnChar sep rest).length :=
        List.length_pos.mpr (splitOnChar_ne_nil sep rest)
      simp only [List.length_cons]
      omega
    · have hr : sep ∈ rest := by
        rcases List.mem_cons.mp h with h1 | h1
        · exact absurd h1.symm hc
        · exact h1
      have h2 := ih hr
      rw [if_neg hc]
      split
      · next heq => exact absurd heq (splitOnChar_ne_nil sep rest)
      · next hh tt heq =>
        rw [heq] at h2
        simp only [List.length_cons] at h2 ⊢
        omega

theorem pySplit_colon_two_le {l : String} {label : String}
    (hc : pyContains l label = true) (hm : ':' ∈ label.data) :
    1 < (pySplit l ':').length := by
  have hcol : ':' ∈ l.data := mem_of_containsSub hc ':' hm
  have := two_le_splitOnChar_length hcol
  simpa [pySplit] using this

theorem extractLabeled_eq_find (label : String) (hm : ':' ∈ label.data) (ls : List String) :
    extractLabeled label ls =
      (ls.find? (fun l => pyContains l label)).map labeledValue := by
  induction ls with
  | nil => rfl
  | cons l ls ih =>
    by_cases hc : pyContains l label = true
    · have hstep : List.find? (fun x => pyContains x label) (l :: ls) = some l := by
        simp only [List.find?, hc]
      rw [hstep]
      simp only [extractLabeled, hc, if_true, pySplit_colon_two_le hc hm,
        Option.map_some', labeledValue]
    · have hc' : pyContains l label = false := by simpa using hc
      have hstep : List.find? (fun x => pyContains x label) (l :: ls) =
          List.find? (fun x => pyContains x label) ls := by
        simp only [List.find?, hc']
      rw [hstep]
      simp only [extractLabeled, hc', Bool.false_eq_true, if_false]
      exact ih

theorem extractPaymentStatus_eq_find (ls : List String) :
    extractPaymentStatus ls =
      (ls.find? (fun l => pyContains l "Payment Status:")).map
        (fun l => normStat (labeledValue l)) := by
  induction ls with
  | nil => rfl
  | cons l ls ih =>
    by_cases hc : pyContains l "Payment Status:" = true
    · have hstep : List.find? (fun x => pyContains x "Payment Status:") (l :: ls) = some l := by
        simp only [List.find?, hc]
      rw [hstep]
      have hlen := pySplit_colon_two_le hc (by decide)
      simp only [extractPaymentStatus, hc, if_true, hlen, Option.map_some',
        normStat, labeledValue]
      split_ifs <;> rfl
    · have hc' : pyContains l "Payment Status:" = false := by simpa using hc
      have hstep : List.find? (fun x => pyContains x "Payment Status:") (l :: ls) =
          List.find? (fun x => pyContains x "Payment Status:") ls := by
        simp only [List.find?, hc']
      rw [hstep]
      simp only [extractPaymentStatus, hc', Bool.false_eq_true, if_false]
      exact ih

theorem extractAmount_eq (ls : List String) :
    extractAmount ls = (ls.filterMap cLineAmount).head? := by
  induction ls with
  | nil => rfl
  | cons l ls ih =>
    by_cases hc : pyContains l "$" = true
    · cases hl : (findAmounts l.data).getLast? with
      | none =>
        simp [extractAmount, cLineAmount, hc, hl, List.filterMap_cons, ih]
      | some cap =>
        cases hp : parseCapture cap with
        | none =>
          simp [extractAmount, cLineAmount, hc, hl, hp, List.filterMap_cons, ih]
        | some q =>
          simp [extractAmount, cLineAmount, hc, hl, hp, List.filterMap_cons]
    · have hc' : pyContains l "$" = false := by simpa using hc
      simp [extractAmount, cLineAmount, hc', List.filterMap_cons, ih]

theorem bnot_any (L : List String) (p : String → Bool) :
    (!(L.any p)) = L.all (fun x => !p x) := by
  induction L with
  | nil => rfl
  | cons a L ih => simp [List.any_cons, List.all_cons, ih]

theorem vendorOK_eq_claim (t : String) : vendorOK t = claimVendorOK t := by
  simp only [vendorOK, claimVendorOK, bnot_any]

theorem extractVendor_eq_find (ls : List String) :
    extractVendor ls = (ls.map pyStrip).find? claimVendorOK := by
  induction ls with
  | nil => rfl
  | cons l ls ih =>
    by_cases h : vendorOK (pyStrip l) = true
    · have h' : claimVendorOK (pyStrip l) = true := by rw [← vendorOK_eq_claim]; exact h
      have hstep : List.find? claimVendorOK (pyStrip l :: ls.map pyStrip) =
          some (pyStrip l) := by
        simp only [List.find?, h']
      simp only [List.map_cons, hstep, extractVendor, h, if_true]
    · have hv : vendorOK (pyStrip l) = false := by simpa using h
      have h' : claimVendorOK (pyStrip l) = false := by rw [← vendorOK_eq_claim]; exact hv
      have hstep : List.find? claimVendorOK (pyStrip l :: ls.map pyStrip) =
          List.find? claimVendorOK (ls.map pyStrip) := by
        simp only [List.find?, h']
      simp only [List.map_cons, hstep, extractVendor, hv, Bool.false_eq_true, if_false]
      exact ih

theorem extractVendor_spec {ls : List String} {v : String}
    (h : extractVendor ls = some v) :
    ∃ l, l ∈ ls ∧ v = pyStrip l ∧ vendorOK v = true := by
  induction ls with
  | nil => simp [extractVendor] at h
  | cons l ls ih =>
    simp only [extractVendor] at h
    by_cases hv : vendorOK (pyStrip l) = true
    · rw [if_pos hv] at h
      have hvl : pyStrip l = v := by injection h
      exact ⟨l, List.mem_cons_self l ls, hvl.symm, hvl ▸ hv⟩
    · rw [if_neg hv] at h
      obtain ⟨l', hmem, hveq, hok⟩ := ih h
      exact ⟨l', List.mem_cons_of_mem _ hmem, hveq, hok⟩

theorem find?_append_none {α : Type} (p : α → Bool) {l1 : List α} (l2 : List α)
    (h : ∀ x ∈ l1, p x = false) :
    List.find? p (l1 ++ l2) = List.find? p l2 := by
  induction l1 with
  | nil => rfl
  | cons a l ih =>
    rw [List.cons_append]
    have hstep : List.find? p (a :: (l ++ l2)) = List.find? p (l ++ l2) := by
      simp only [List.find?, h a (List.mem_cons_self a l)]
    rw [hstep]
    exact ih (fun x hx => h x (List.mem_cons_of_mem _ hx))

theorem sum_filter_bne_zero (L : List ℚ) :
    (L.filter (fun q => q != 0)).sum = L.sum := by
  induction L with
  | nil => rfl
  | cons q L ih =>
    rcases eq_or_ne q 0 with h | h
    · subst h
      simp [List.filter_cons, ih]
    · have hb : (q != 0) = true := bne_iff_ne.mpr h
      simp [List.filter_cons, hb, ih]

theorem filter_bne_nil_eq_self (L : List String) (h : ∀ v ∈ L, v ≠ "") :
    L.filter (fun s => s != "") = L :=
  List.filter_eq_self.mpr (fun a ha => bne_iff_ne.mpr (h a ha))

theorem run_vendor_ne_empty {doc : Except String String} {p v : String}
    (h : (extract_invoice_data_run doc p).vendor_name = some v) : v ≠ "" := by
  cases doc with
  | error e => simp [extract_invoice_data_run, nullRecord] at h
  | ok text =>
    simp only [extract_invoice_data_run, extract_invoice_data, extractFromLines] at h
    obtain ⟨l, _, _, hok⟩ := extractVendor_spec h
    intro hv
    rw [hv] at hok
    exact absurd hok (by decide)

/-! ### Claim theorems -/

/-- Claim C1: extraction never raises — for every document outcome it
returns a well-formed seven-field record (totality of
`extract_invoice_data_run`); any exception while reading the document
yields the record with all six data fields null and `file_path` set to
the source file's base name, and the exception never reaches the caller. -/
theorem claim_C1_extraction_never_fails :
    (∀ (doc : Except String String) (p : String),
      (extract_invoice_data_run doc p).file_path = pathName p) ∧
    (∀ (e : String) (p : String),
      extract_invoice_data_run (Except.error e) p = nullRecord (pathName p)) ∧
    (∀ f : String,
      (nullRecord f).invoice_number = none ∧ (nullRecord f).vendor_name = none ∧
      (nullRecord f).invoice_date = none ∧ (nullRecord f).invoice_amount = none ∧
      (nullRecord f).due_date = none ∧ (nullRecord f).payment_status = none ∧
      (nullRecord f).file_path = f) := by
  refine ⟨fun doc p => ?_, fun e p => rfl, fun f => ?_⟩
  · cases doc <;> rfl
  · simp [nullRecord]

/-- Claim C2: the amount rule — `invoice_amount` is the first per-line
amount obtained by scanning top to bottom, where a line containing `$`
contributes the last regex capture on it, comma-stripped and parsed, and
a line whose parse fails (or with no capture) is skipped; no contributing
line gives null.  On the line `Total Due: $1,234.56 $999.00` the last
match wins, so the amount is 999; a line whose capture fails to parse
(`$,`) is skipped in favour of a later line. -/
theorem claim_C2_amount_rule :
    (∀ (ls : List String) (f : String),
      (extractFromLines ls f).invoice_amount = (ls.filterMap cLineAmount).head?) ∧
    (extract_invoice_data "Total Due: $1,234.56 $999.00" "inv.pdf").invoice_amount =
      some (999 : ℚ) ∧
    (extract_invoice_data "Fee: $,\nBalance: $5" "inv.pdf").invoice_amount =
      some (5 : ℚ) ∧
    (∀ f : String, (extract_invoice_data "no amounts here" f).invoice_amount = none) := by
  refine ⟨fun ls f => extractAmount_eq ls, ?_, ?_, fun f => ?_⟩
  · rw [show (extract_invoice_data "Total Due: $1,234.56 $999.00" "inv.pdf").invoice_amount =
        some (((digitsVal ['9', '9', '9'] : ℕ) : ℚ) +
          ((digitsVal ['0', '0'] : ℕ) : ℚ) / (10 : ℚ) ^ (['0', '0'] : List Char).length)
        from rfl,
      show digitsVal ['9', '9', '9'] = 999 from by decide,
      show digitsVal ['0', '0'] = 0 from by decide]
    norm_num
  · rw [show (extract_invoice_data "Fee: $,\nBalance: $5" "inv.pdf").invoice_amount =
        some ((digitsVal ['5'] : ℕ) : ℚ) from rfl,
      show digitsVal ['5'] = 5 from by decide]
    norm_num
  · show extractAmount (pySplit "no amounts here" '\n') = none
    decide

/-- Claim C3 counterexample: the claim says the extracted invoice number
is the trimmed substring after the first colon in full, so that a value
containing a colon is returned whole; but on the line
`Invoice Number: INV:001` the code takes `line.split(':')[1]`, the text
between the first and second colons, and returns `INV`, not `INV:001`. -/
theorem claim_C3_counterexample :
    (extract_invoice_data "Invoice Number: INV:001" "inv.pdf").invoice_number =
      some "INV" ∧
    (extract_invoice_data "Invoice Number: INV:001" "inv.pdf").invoice_number ≠
      some "INV:001" := by
  refine ⟨by decide, by decide⟩

/-- Claim C3 amended: `invoice_number` comes from the first line containing
the literal label `Invoice Number:`; its value is the trimmed second field
of the colon-split of that line — the text between the line's first and
second colons, so a value that itself contains a colon is truncated at
it — and it is null when no line contains the label; in particular, for
text containing `Invoice Number: INV-2024-001` the extracted number is
`INV-2024-001`. -/
theorem claim_C3_invoice_number_amended :
    (∀ (ls : List String) (f : String),
      (extractFromLines ls f).invoice_number =
        (ls.find? (fun l => pyContains l "Invoice Number:")).map labeledValue) ∧
    (extract_invoice_data "Invoice Number: INV-2024-001" "inv.pdf").invoice_number =
      some "INV-2024-001" ∧
    (∀ f : String, (extract_invoice_data "nothing relevant" f).invoice_number = none) := by
  refine ⟨fun ls f => extractLabeled_eq_find "Invoice Number:" (by decide) ls,
    by decide, fun f => ?_⟩
  show extractLabeled "Invoice Number:" (pySplit "nothing relevant" '\n') = none
  decide

/-- Claim C4: the vendor-name rule — `vendor_name` is the first line that,
stripped of surrounding whitespace, is non-empty, longer than three
characters, and whose lowercased content contains none of the stoplist
words; if no line qualifies it is null (`find?` over the stripped lines
returns `none` exactly then). -/
theorem claim_C4_vendor_rule :
    ∀ (ls : List String) (f : String),
      (extractFromLines ls f).vendor_name = (ls.map pyStrip).find? claimVendorOK :=
  fun ls _ => extractVendor_eq_find ls

/-- Claim C5: the payment-status rule — the first line containing
`Payment Status:` determines the field by normalising its trimmed value
case-insensitively (containing `unpaid` gives `Unpaid`, else containing
`paid` gives `Paid`, else the raw trimmed value passes through), and the
field is null, not the empty string, when no line has the label.
`Payment Status: UNPAID` gives `Unpaid` and `Payment Status: Paid in full`
gives `Paid`. -/
theorem claim_C5_payment_status_rule :
    (∀ (ls : List String) (f : String),
      (extractFromLines ls f).payment_status =
        (ls.find? (fun l => pyContains l "Payment Status:")).map
          (fun l => normStat (labeledValue l))) ∧
    (extract_invoice_data "Payment Status: UNPAID" "a.pdf").payment_status =
      some "Unpaid" ∧
    (extract_invoice_data "Payment Status: Paid in full" "a.pdf").payment_status =
      some "Paid" ∧
    (∀ f : String, (extract_invoice_data "no status line" f).payment_status = none) := by
  refine ⟨fun ls f => extractPaymentStatus_eq_find ls, by decide, by decide,
    fun f => ?_⟩
  show extractPaymentStatus (pySplit "no status line" '\n') = none
  decide

theorem truthyStr_iff (o : Option String) :
    truthyStr o = true ↔ ∃ s, o = some s ∧ s ≠ "" := by
  cases o <;> simp [truthyStr]

theorem truthyAmt_iff (o : Option ℚ) :
    truthyAmt o = true ↔ ∃ q, o = some q ∧ q ≠ 0 := by
  cases o <;> simp [truthyAmt]

/-- Claim C6 counterexample: the claim says a record is emitted whenever at
least one of the three key fields is non-null; but the caller tests Python
truthiness, and the text `Invoice Number:` produces a record whose
`invoice_number` is the non-null empty string, which is falsy, so the
record is discarded. -/
theorem claim_C6_counterexample :
    (extract_invoice_data "Invoice Number:" "inv.pdf").invoice_number ≠ none ∧
    filterRecords [extract_invoice_data "Invoice Number:" "inv.pdf"] = [] := by
  refine ⟨by decide, by decide⟩

/-- Claim C6 amended: a record is emitted iff at least one of the three key
fields is non-null and Python-truthy — `invoice_number` or `vendor_name` a
non-empty string, or `invoice_amount` a non-zero value; equivalently, a
record is omitted exactly when every one of the three is null or falsy
(null or empty string for the names, null or 0.0 for the amount). -/
theorem claim_C6_filter_amended :
    ∀ (rs : List InvoiceData) (r : InvoiceData),
      r ∈ filterRecords rs ↔
        r ∈ rs ∧ ((∃ s, r.invoice_number = some s ∧ s ≠ "") ∨
          (∃ q, r.invoice_amount = some q ∧ q ≠ 0) ∨
          (∃ s, r.vendor_name = some s ∧ s ≠ "")) := by
  intro rs r
  rw [filterRecords, List.mem_filter]
  refine and_congr_right fun _ => ?_
  simp only [keepRecord, Bool.or_eq_true, truthyStr_iff, truthyAmt_iff]
  exact or_assoc

theorem find?_cons_pos' {α : Type} (p : α → Bool) (a : α) (l : List α)
    (h : p a = true) : List.find? p (a :: l) = some a := by
  simp only [List.find?, h]

theorem find?_cons_neg' {α : Type} (p : α → Bool) (a : α) (l : List α)
    (h : p a = false) : List.find? p (a :: l) = List.find? p l := by
  simp only [List.find?, h]

theorem formatCurrency_five : formatCurrency 5 = "$5.00" := by
  have hm : (5 : ℚ) * 100 = 500 := by norm_num
  have hf : floorQ (500 : ℚ) = 500 := by decide
  have hb : bankersRound ((5 : ℚ) * 100) = 500 := by
    simp only [hm, bankersRound, hf]
    norm_num
  simp only [formatCurrency, hb]
  decide

/-- Claim C7: for a non-empty list of emitted records the summary sheet has
exactly three rows: the total record count, the sum of the non-null
amounts formatted as currency (the code sums only truthy amounts, but the
skipped zeros contribute nothing to a sum), and the number of distinct
non-null vendor names (the code drops empty names, but an emitted record's
vendor name is never the empty string since the vendor rule requires
length > 3). -/
theorem claim_C7_summary :
    ∀ rs : List InvoiceData, rs ≠ [] →
      (∃ docs : List (Except String String × String),
        rs = filterRecords (docs.map (fun d => extract_invoice_data_run d.1 d.2))) →
      summaryRows rs =
        [("Total Invoices", SVal.nat rs.length),
         ("Total Amount", SVal.str (formatCurrency
            ((rs.filterMap InvoiceData.invoice_amount).sum))),
         ("Unique Vendors", SVal.nat
            ((rs.filterMap InvoiceData.vendor_name).dedup.length))] ∧
      (summaryRows rs).length = 3 := by
  intro rs hne hdocs
  obtain ⟨docs, hd⟩ := hdocs
  refine ⟨?_, rfl⟩
  have hamt : totalAmountOf rs = (rs.filterMap InvoiceData.invoice_amount).sum :=
    sum_filter_bne_zero _
  have hv : ∀ v ∈ rs.filterMap InvoiceData.vendor_name, v ≠ "" := by
    intro v hvmem
    obtain ⟨r, hr, hrv⟩ := List.mem_filterMap.mp hvmem
    have hrs : r ∈ filterRecords (docs.map fun d => extract_invoice_data_run d.1 d.2) :=
      hd ▸ hr
    have hmap : r ∈ docs.map fun d => extract_invoice_data_run d.1 d.2 :=
      (List.mem_filter.mp hrs).1
    obtain ⟨d, _, hdr⟩ := List.mem_map.mp hmap
    subst hdr
    exact run_vendor_ne_empty hrv
  have huniq : uniqueVendorCount rs =
      (rs.filterMap InvoiceData.vendor_name).dedup.length := by
    rw [uniqueVendorCount, filter_bne_nil_eq_self _ hv]
  rw [summaryRows, hamt, huniq]

/-- Claim C7 witness: one successfully read document with vendor
`Acme Corp`, invoice number 7 and amount $5 yields a one-record report
whose summary rows are 1 invoice, $5.00 total, 1 unique vendor. -/
theorem claim_C7_summary_witness :
    summaryRows (filterRecords ([(Except.ok "Acme Corp\nInvoice Number: 7\nTotal: $5",
        "inv.pdf")].map (fun d => extract_invoice_data_run d.1 d.2))) =
      [("Total Invoices", SVal.nat 1), ("Total Amount", SVal.str "$5.00"),
       ("Unique Vendors", SVal.nat 1)] := by
  have h := (claim_C7_summary
    (filterRecords ([(Except.ok "Acme Corp\nInvoice Number: 7\nTotal: $5",
        "inv.pdf")].map (fun d => extract_invoice_data_run d.1 d.2)))
    (by decide)
    ⟨[(Except.ok "Acme Corp\nInvoice Number: 7\nTotal: $5", "inv.pdf")], rfl⟩).1
  rw [h]
  have hsum : ((filterRecords ([(Except.ok "Acme Corp\nInvoice Number: 7\nTotal: $5",
      "inv.pdf")].map (fun d => extract_invoice_data_run d.1 d.2))).filterMap
        InvoiceData.invoice_amount).sum = (5 : ℚ) := by
    rw [show (filterRecords ([(Except.ok "Acme Corp\nInvoice Number: 7\nTotal: $5",
        "inv.pdf")].map (fun d => extract_invoice_data_run d.1 d.2))).filterMap
          InvoiceData.invoice_amount = [((digitsVal ['5'] : ℕ) : ℚ)] from rfl,
      show digitsVal ['5'] = 5 from by decide]
    simp
  rw [hsum, formatCurrency_five]
  decide

/-- Claim C8: determinism — the extractor method holds no cross-call state:
it leaves the object state unchanged, a second run on the same text and
path returns the same record, and the record does not depend on the object
state at all. -/
theorem claim_C8_determinism :
    ∀ (st st2 : RPAState) (text p : String),
      (extract_invoice_data_method st text p).2 = st ∧
      (extract_invoice_data_method ((extract_invoice_data_method st text p).2) text p).1 =
        (extract_invoice_data_method st text p).1 ∧
      (extract_invoice_data_method st text p).1 =
        (extract_invoice_data_method st2 text p).1 :=
  fun _ _ _ _ => ⟨rfl, rfl, rfl⟩

/-- Claim C9: a labeled line with empty value text (a line that is exactly
the label) yields the empty string, not null, for `invoice_number`,
`invoice_date` and `due_date`, and the empty string is distinguishable
from the null used when the label is absent. -/
theorem claim_C9_empty_value :
    ∀ (pre post : List String) (f : String),
      (∀ l ∈ pre, pyContains l "Invoice Number:" = false ∧
        pyContains l "Invoice Date:" = false ∧ pyContains l "Due Date:" = false) →
      (extractFromLines (pre ++ ["Invoice Number:", "Invoice Date:", "Due Date:"] ++ post)
          f).invoice_number = some "" ∧
      (extractFromLines (pre ++ ["Invoice Number:", "Invoice Date:", "Due Date:"] ++ post)
          f).invoice_date = some "" ∧
      (extractFromLines (pre ++ ["Invoice Number:", "Invoice Date:", "Due Date:"] ++ post)
          f).due_date = some "" ∧
      (some "" : Option String) ≠ (none : Option String) := by
  intro pre post f h
  have hassoc : pre ++ ["Invoice Number:", "Invoice Date:", "Due Date:"] ++ post =
      pre ++ ("Invoice Number:" :: "Invoice Date:" :: "Due Date:" :: post) := by
    simp [List.append_assoc]
  refine ⟨?_, ?_, ?_, by simp⟩
  · show extractLabeled "Invoice Number:"
      (pre ++ ["Invoice Number:", "Invoice Date:", "Due Date:"] ++ post) = some ""
    rw [extractLabeled_eq_find _ (by decide), hassoc,
      find?_append_none _ _ (fun x hx => (h x hx).1),
      find?_cons_pos' _ _ _ (by decide)]
    decide
  · show extractLabeled "Invoice Date:"
      (pre ++ ["Invoice Number:", "Invoice Date:", "Due Date:"] ++ post) = some ""
    rw [extractLabeled_eq_find _ (by decide), hassoc,
      find?_append_none _ _ (fun x hx => (h x hx).2.1),
      find?_cons_neg' _ _ _ (by decide),
      find?_cons_pos' _ _ _ (by decide)]
    decide
  · show extractLabeled "Due Date:"
      (pre ++ ["Invoice Number:", "Invoice Date:", "Due Date:"] ++ post) = some ""
    rw [extractLabeled_eq_find _ (by decide), hassoc,
      find?_append_none _ _ (fun x hx => (h x hx).2.2),
      find?_cons_neg' _ _ _ (by decide),
      find?_cons_neg' _ _ _ (by decide),
      find?_cons_pos' _ _ _ (by decide)]
    decide

/-- Claim C9 witness: with no surrounding lines, the three bare labels give
the empty string in all three fields. -/
theorem claim_C9_empty_value_witness :
    (extractFromLines ["Invoice Number:", "Invoice Date:", "Due Date:"]
      "f.pdf").invoice_number = some "" ∧
    (extractFromLines ["Invoice Number:", "Invoice Date:", "Due Date:"]
      "f.pdf").invoice_date = some "" ∧
    (extractFromLines ["Invoice Number:", "Invoice Date:", "Due Date:"]
      "f.pdf").due_date = some "" ∧
    (some "" : Option String) ≠ (none : Option String) := by
  have h := claim_C9_empty_value [] [] "f.pdf" (by intro l hl; cases hl)
  simpa using h

/-- Claim C10: whenever the returned record's `vendor_name` is non-null, it
is some input line stripped of surrounding whitespace, its length exceeds
3, and its lowercased content contains none of the seventeen stoplist
keywords. -/
theorem claim_C10_vendor_invariant :
    ∀ (ls : List String) (f : String) (v : String),
      (extractFromLines ls f).vendor_name = some v →
      (∃ l, l ∈ ls ∧ v = pyStrip l) ∧ 3 < v.length ∧ stopKeywords.length = 17 ∧
      ∀ k ∈ stopKeywords, pyContains (pyLower v) k = false := by
  intro ls f v h
  obtain ⟨l, hmem, hveq, hok⟩ := extractVendor_spec h
  refine ⟨⟨l, hmem, hveq⟩, ?_, by decide, ?_⟩
  · have h1 := hok
    simp only [vendorOK, Bool.and_eq_true, decide_eq_true_eq] at h1
    exact h1.1.2
  · intro k hk
    have h2 : stopKeywords.any (fun k => pyContains (pyLower v) k) = false := by
      have h1 := hok
      simp only [vendorOK, Bool.and_eq_true, Bool.not_eq_true'] at h1
      exact h1.2
    rw [List.any_eq_false] at h2
    simpa using h2 k hk

/-- Claim C10 witness: the single line `Acme Corp` is returned as vendor
name and satisfies the stated invariant. -/
theorem claim_C10_vendor_invariant_witness :
    (extractFromLines ["Acme Corp"] "f.pdf").vendor_name = some "Acme Corp" ∧
    ((∃ l, l ∈ ["Acme Corp"] ∧ "Acme Corp" = pyStrip l) ∧
      3 < "Acme Corp".length ∧ stopKeywords.length = 17 ∧
      ∀ k ∈ stopKeywords, pyContains (pyLower "Acme Corp") k = false) :=
  ⟨by decide, claim_C10_vendor_invariant ["Acme Corp"] "f.pdf" "Acme Corp" (by decide)⟩
